import Mathlib

/-!
Verification development for the go-argue repository (an Ollama-backed
AI debate TUI). The Go sources are shallowly embedded: Go strings become
`List Char`, the Bubbletea `debateModel.Update` message handler becomes a
pure transition function on an explicit state record, and the streaming
HTTP client becomes a function over an explicit record stream with
cancellation oracles. Presentation-only fields (viewport, terminal
dimensions) and the HTTP client handle are omitted: they are read by no
transition that touches the debate state.
-/

namespace GoArgue

/-- Go strings, embedded as character lists so that concatenation and
substring reasoning have good list lemmas. -/
abbrev Str := List Char

/-- Whitespace test used by Go's strings.TrimSpace (unicode.IsSpace),
restricted to the Latin-1 white-space characters; White_Space code points
above U+00FF are not modelled. -/
def isSpaceChar (c : Char) : Bool :=
  c = ' ' || c = '\t' || c = '\n' || c = '\x0b' || c = '\x0c' || c = '\r' ||
  c = '\u0085' || c = ' '

/-- Go strings.TrimSpace: drop white space from both ends. -/
def trimSpace (s : Str) : Str :=
  ((s.dropWhile isSpaceChar).reverse.dropWhile isSpaceChar).reverse

/-- appState (ollama.go): stateInput, stateDebating, stateStopped, stateError. -/
inductive AppState where
  | stateInput
  | stateDebating
  | stateStopped
  | stateError
deriving DecidableEq

/-- Turn (ollama.go): one model's contribution. time.Time is abstracted
to a Nat tick supplied to the transition function. -/
structure Turn where
  modelName : Str
  content : Str
  timestamp : Nat
deriving DecidableEq

/-- debateModel (ollama.go): the application state. The viewport, width
and height fields (pure presentation) and the ollamaClient handle are
omitted; textInput is abstracted to its string value. -/
structure DebateModel where
  model1Name : Str
  model2Name : Str
  topic : Str
  history : List Turn
  currentTurn : Int
  isGenerating : Bool
  state : AppState
  textInputValue : Str
  errorMsg : Str
deriving DecidableEq

/-- getNextModel (ollama.go): model1 when currentTurn is 0, else model2. -/
def getNextModel (m : DebateModel) : Str :=
  if m.currentTurn = 0 then m.model1Name else m.model2Name

/-- switchTurn (ollama.go): toggle currentTurn between 0 and 1. -/
def switchTurn (m : DebateModel) : DebateModel :=
  if m.currentTurn = 0 then { m with currentTurn := 1 } else { m with currentTurn := 0 }

/-- The messages handled by debateModel.Update that can touch debate
state. keyOther stands for any key besides enter/ctrl+c/q, which the
code forwards to the textinput component while in the input state; the
component's resulting value is the constructor's argument. responseError
carries the error's rendered text. -/
inductive Msg where
  | keyCtrlCOrQ
  | keyEnter
  | keyOther (newValue : Str)
  | responseChunk (chunk : Str)
  | responseComplete (fullResponse : Str)
  | responseError (err : Str)
  | stopDebate
deriving DecidableEq

/-- History mutation of the responseChunkMsg case (ollama.go): append
the chunk to the last turn when it belongs to the current model,
otherwise open a new turn for the current model. -/
def chunkHistory (m : DebateModel) (chunk : Str) (now : Nat) : List Turn :=
  match m.history.getLast? with
  | some last =>
      if last.modelName = getNextModel m then
        m.history.dropLast ++ [{ last with content := last.content ++ chunk }]
      else
        m.history ++ [⟨getNextModel m, chunk, now⟩]
  | none => m.history ++ [⟨getNextModel m, chunk, now⟩]

/-- History mutation of the responseCompleteMsg case (ollama.go): when
the history is empty or the last turn's content differs from the full
response, either rewrite the last turn (if it belongs to the current
model) or append a new turn; otherwise leave the history alone. -/
def completeHistory (m : DebateModel) (full : Str) (now : Nat) : List Turn :=
  match m.history.getLast? with
  | some last =>
      if last.content ≠ full then
        if last.modelName = getNextModel m then
          m.history.dropLast ++ [{ last with content := full, timestamp := now }]
        else
          m.history ++ [⟨getNextModel m, full, now⟩]
      else m.history
  | none => m.history ++ [⟨getNextModel m, full, now⟩]

/-- debateModel.Update (ollama.go), restricted to the debate-relevant
messages. `now` abstracts time.Now(). -/
def update (m : DebateModel) (msg : Msg) (now : Nat) : DebateModel :=
  match msg with
  | .keyCtrlCOrQ =>
      if m.state = .stateDebating then { m with state := .stateStopped } else m
  | .keyEnter =>
      if m.state = .stateInput then
        let topic := m.textInputValue
        if (trimSpace topic).length = 0 then
          { m with errorMsg := "Topic cannot be empty".data }
        else
          { m with topic := topic, state := .stateDebating, errorMsg := [],
                   isGenerating := true, currentTurn := 0 }
      else m
  | .keyOther newValue =>
      if m.state = .stateInput then { m with textInputValue := newValue } else m
  | .responseChunk chunk =>
      if m.isGenerating then { m with history := chunkHistory m chunk now } else m
  | .responseComplete full =>
      let m1 := { m with isGenerating := false }
      let m2 := { m1 with history := completeHistory m1 full now }
      let m3 := switchTurn m2
      { m3 with isGenerating := true }
  | .responseError err =>
      let m1 := { m with isGenerating := false, errorMsg := "Error: ".data ++ err }
      let m2 := switchTurn m1
      { m2 with isGenerating := true }
  | .stopDebate =>
      { m with isGenerating := false, state := .stateStopped }

/-- The initial model built in main.go: empty topic and history,
currentTurn 0, input state; Go zero values for the remaining fields. -/
def initialModel (m1 m2 : Str) : DebateModel :=
  { model1Name := m1, model2Name := m2, topic := [], history := [],
    currentTurn := 0, isGenerating := false, state := .stateInput,
    textInputValue := [], errorMsg := [] }

/-- States reachable from the initial model under any event sequence. -/
inductive Reachable (m1 m2 : Str) : DebateModel → Prop where
  | init : Reachable m1 m2 (initialModel m1 m2)
  | step (m : DebateModel) (msg : Msg) (now : Nat) :
      Reachable m1 m2 m → Reachable m1 m2 (update m msg now)

/-- One formatted history entry of FormatHistory (prompt.go):
"[name]: content". -/
def formatTurnEntry (t : Turn) : Str :=
  "[".data ++ t.modelName ++ "]: ".data ++ t.content

/-- FormatHistory (prompt.go): entries separated by one blank line, with
no separator after the last entry. -/
def formatHistory : List Turn → Str
  | [] => []
  | [t] => formatTurnEntry t
  | t :: rest => formatTurnEntry t ++ "\n\n".data ++ formatHistory rest

/-- The opening-position instruction of BuildDebatePrompt (prompt.go). -/
def openingInstr : Str :=
  "You will be presenting the opening argument. Take a clear position on this topic and present your initial arguments.\n\n".data

/-- The opposing-position instruction of BuildDebatePrompt (prompt.go). -/
def counterInstr : Str :=
  "You will be responding to the opening argument. Take an opposing or alternative perspective and present your counterarguments.\n\n".data

/-- The position-assignment segment of BuildDebatePrompt (prompt.go):
emitted only on the first turn, choosing by whether history is empty. -/
def positionSegment (history : List Turn) (isFirstTurn : Bool) : Str :=
  if isFirstTurn then
    if history = [] then openingInstr else counterInstr
  else []

/-- BuildDebatePrompt (prompt.go): topic header, role line, optional
position assignment, optional rendered history, closing instruction. -/
def buildDebatePrompt (topic : Str) (history : List Turn) (currentModel : Str)
    (isFirstTurn : Bool) : Str :=
  "You are participating in a debate on the topic: \"".data ++ topic ++ "\"\n\n".data
  ++ "You are ".data ++ currentModel
  ++ ". Your role is to present arguments and respond to your opponent's points.\n\n".data
  ++ positionSegment history isFirstTurn
  ++ (if history = [] then []
      else "Previous discussion:\n".data ++ formatHistory history ++ "\n".data)
  ++ (if history = [] then
        "Provide your opening argument. Be thoughtful, specific, and clearly state your position.\n".data
      else
        "Provide your next argument or response. Be thoughtful, specific, and engage directly with the previous points made.\n".data)

/-- NewOllamaClient (ollama.go): the stored base URL defaults to the
local Ollama endpoint when the argument is empty. -/
def newOllamaClientBaseURL (baseURL : Str) : Str :=
  if baseURL = [] then "http://localhost:11434".data else baseURL

/-- One scanned line of the streaming response body: a record that
parses as GenerateResponse (the code reads only its Response and Done
fields), an empty line (skipped), or bytes that fail to parse. -/
inductive StreamRec where
  | parsed (response : Str) (done : Bool)
  | emptyLine
  | malformed
deriving DecidableEq

/-- Causes of a failed generation, mirroring the errors GenerateResponse
(ollama.go) sends on its error channel. connectFailure is the "failed to
send request" error, scanFailure the "error reading response" one;
canceled is ctx.Err() for a cancelled context, distinct from every
transport cause. -/
inductive ErrCause where
  | connectFailure
  | httpStatus (code : Nat)
  | parseFailure
  | canceled
  | scanFailure
deriving DecidableEq

/-- Outcome of one generation: channels closed with no error (success)
or with an error sent (failure). -/
inductive Outcome where
  | success
  | failure (cause : ErrCause)
deriving DecidableEq

/-- The scanner loop of GenerateResponse (ollama.go), processing scanned
lines in order. `ctxDone i` tells whether the non-blocking top-of-loop
cancellation check fires at iteration i; `sendCancel i` tells whether
the select that hands the iteration-i chunk to the caller resolves to
the cancellation branch (possible only when the caller is not ready and
the context gets cancelled). `scanErr` tells whether the scanner stopped
because the connection dropped rather than at a clean end of stream.
Returns the chunks sent in order and the terminal outcome. -/
def runLines (ctxDone sendCancel : Nat → Bool) :
    List StreamRec → Nat → Bool → List Str × Outcome
  | [], _, scanErr => ([], if scanErr then .failure .scanFailure else .success)
  | line :: rest, i, scanErr =>
      if ctxDone i then ([], .failure .canceled)
      else
        match line with
        | .emptyLine => runLines ctxDone sendCancel rest (i + 1) scanErr
        | .malformed => ([], .failure .parseFailure)
        | .parsed resp done =>
            if resp ≠ [] ∧ sendCancel i then ([], .failure .canceled)
            else
              let emitted := if resp ≠ [] then [resp] else []
              if done then (emitted, .success)
              else
                let r := runLines ctxDone sendCancel rest (i + 1) scanErr
                (emitted ++ r.1, r.2)

/-- GenerateResponse (ollama.go) as a whole: request send failure, then
the status check (failure captures the code), then the scanner loop. -/
def generateResponseRun (sendErr : Bool) (status : Nat) (lines : List StreamRec)
    (scanErr : Bool) (ctxDone sendCancel : Nat → Bool) : List Str × Outcome :=
  if sendErr then ([], .failure .connectFailure)
  else if status ≠ 200 then ([], .failure (.httpStatus status))
  else runLines ctxDone sendCancel lines 0 scanErr

/-- The chunks a list of scanned lines would contribute: the nonempty
response fields of its parsed records, in order. -/
def chunksOf : List StreamRec → List Str
  | [] => []
  | .parsed resp _ :: rest => (if resp ≠ [] then [resp] else []) ++ chunksOf rest
  | _ :: rest => chunksOf rest

/-- A scanned line that neither terminates the stream nor aborts it: an
empty line or a record that parses with the done flag unset. -/
def isNonTerminal : StreamRec → Bool
  | .parsed _ done => !done
  | .emptyLine => true
  | .malformed => false

/-- Adjacent turns carry different model names. -/
def alternatesOk (l : List Turn) : Prop :=
  List.Chain' (fun a b => a.modelName ≠ b.modelName) l

/-- The inductive invariant of the debate state machine: model names are
the configured ones, the turn selector is binary, every recorded turn is
attributed to a configured model, and adjacent turns alternate. -/
def Inv (m1 m2 : Str) (s : DebateModel) : Prop :=
  s.model1Name = m1 ∧ s.model2Name = m2 ∧
  (s.currentTurn = 0 ∨ s.currentTurn = 1) ∧
  (∀ t ∈ s.history, t.modelName = m1 ∨ t.modelName = m2) ∧
  alternatesOk s.history

lemma getNextModel_cases (s : DebateModel) :
    getNextModel s = s.model1Name ∨ getNextModel s = s.model2Name := by
  unfold getNextModel; split <;> simp

lemma switchTurn_currentTurn (s : DebateModel) :
    (switchTurn s).currentTurn = 0 ∨ (switchTurn s).currentTurn = 1 := by
  unfold switchTurn; split <;> simp

lemma switchTurn_history (s : DebateModel) : (switchTurn s).history = s.history := by
  unfold switchTurn; split <;> rfl

lemma switchTurn_model1Name (s : DebateModel) :
    (switchTurn s).model1Name = s.model1Name := by
  unfold switchTurn; split <;> rfl

lemma switchTurn_model2Name (s : DebateModel) :
    (switchTurn s).model2Name = s.model2Name := by
  unfold switchTurn; split <;> rfl

lemma mem_of_getLast?_eq (l : List Turn) (x : Turn) (h : l.getLast? = some x) :
    x ∈ l := by
  rw [← List.dropLast_append_getLast? x h]; simp

lemma alternatesOk_append_new (l : List Turn) (t : Turn) (hl : alternatesOk l)
    (h : ∀ x ∈ l.getLast?, x.modelName ≠ t.modelName) :
    alternatesOk (l ++ [t]) := by
  rw [alternatesOk, List.chain'_append]
  refine ⟨hl, List.chain'_singleton t, ?_⟩
  intro x hx y hy
  simp only [List.head?_cons, Option.mem_def, Option.some.injEq] at hy
  subst hy
  exact h x hx

lemma alternatesOk_rewriteLast (l : List Turn) (last t : Turn)
    (hl : alternatesOk l) (hlast : l.getLast? = some last)
    (hname : t.modelName = last.modelName) :
    alternatesOk (l.dropLast ++ [t]) := by
  have hdl : l.dropLast ++ [last] = l := List.dropLast_append_getLast? last hlast
  rw [← hdl] at hl
  rw [alternatesOk, List.chain'_append] at hl ⊢
  obtain ⟨h1, _, h3⟩ := hl
  refine ⟨h1, List.chain'_singleton t, ?_⟩
  intro x hx y hy
  simp only [List.head?_cons, Option.mem_def, Option.some.injEq] at hy
  subst hy
  have := h3 x hx last (by simp)
  rw [hname]
  exact this

lemma chunkHistory_alternates (s : DebateModel) (c : Str) (now : Nat)
    (h : alternatesOk s.history) : alternatesOk (chunkHistory s c now) := by
  unfold chunkHistory
  split
  · next last hlast =>
      split
      · next hname =>
          exact alternatesOk_rewriteLast s.history last _ h hlast rfl
      · next hname =>
          refine alternatesOk_append_new s.history _ h ?_
          intro x hx
          rw [hlast, Option.mem_def, Option.some.injEq] at hx
          subst hx
          simpa using hname
  · next hnone =>
      refine alternatesOk_append_new s.history _ h ?_
      intro x hx
      rw [hnone] at hx
      simp at hx

lemma completeHistory_alternates (s : DebateModel) (full : Str) (now : Nat)
    (h : alternatesOk s.history) : alternatesOk (completeHistory s full now) := by
  unfold completeHistory
  split
  · next last hlast =>
      split
      · split
        · next hname =>
            exact alternatesOk_rewriteLast s.history last _ h hlast rfl
        · next hname =>
            refine alternatesOk_append_new s.history _ h ?_
            intro x hx
            rw [hlast, Option.mem_def, Option.some.injEq] at hx
            subst hx
            simpa using hname
      · exact h
  · next hnone =>
      refine alternatesOk_append_new s.history _ h ?_
      intro x hx
      rw [hnone] at hx
      simp at hx

lemma chunkHistory_names (s : DebateModel) (c : Str) (now : Nat) (P : Str → Prop)
    (h : ∀ t ∈ s.history, P t.modelName) (hnext : P (getNextModel s)) :
    ∀ t ∈ chunkHistory s c now, P t.modelName := by
  unfold chunkHistory
  split
  · next last hlast =>
      split
      · intro t ht
        rcases List.mem_append.mp ht with hd | hs
        · exact h t (List.mem_of_mem_dropLast hd)
        · rw [List.mem_singleton] at hs
          subst hs
          exact h last (mem_of_getLast?_eq s.history last hlast)
      · intro t ht
        rcases List.mem_append.mp ht with hd | hs
        · exact h t hd
        · rw [List.mem_singleton] at hs; subst hs; exact hnext
  · next hnone =>
      intro t ht
      rcases List.mem_append.mp ht with hd | hs
      · exact h t hd
      · rw [List.mem_singleton] at hs; subst hs; exact hnext

lemma completeHistory_names (s : DebateModel) (full : Str) (now : Nat) (P : Str → Prop)
    (h : ∀ t ∈ s.history, P t.modelName) (hnext : P (getNextModel s)) :
    ∀ t ∈ completeHistory s full now, P t.modelName := by
  unfold completeHistory
  split
  · next last hlast =>
      split
      · split
        · intro t ht
          rcases List.mem_append.mp ht with hd | hs
          · exact h t (List.mem_of_mem_dropLast hd)
          · rw [List.mem_singleton] at hs
            subst hs
            exact h last (mem_of_getLast?_eq s.history last hlast)
        · intro t ht
          rcases List.mem_append.mp ht with hd | hs
          · exact h t hd
          · rw [List.mem_singleton] at hs; subst hs; exact hnext
      · exact h
  · next hnone =>
      intro t ht
      rcases List.mem_append.mp ht with hd | hs
      · exact h t hd
      · rw [List.mem_singleton] at hs; subst hs; exact hnext

lemma inv_init (m1 m2 : Str) : Inv m1 m2 (initialModel m1 m2) := by
  refine ⟨rfl, rfl, Or.inl rfl, ?_, ?_⟩
  · intro t ht; simp [initialModel] at ht
  · simp [initialModel, alternatesOk]

lemma inv_step (m1 m2 : Str) (s : DebateModel) (msg : Msg) (now : Nat)
    (h : Inv m1 m2 s) : Inv m1 m2 (update s msg now) := by
  obtain ⟨h1, h2, h3, h4, h5⟩ := h
  cases msg with
  | keyCtrlCOrQ =>
      simp only [update]; split
      · exact ⟨h1, h2, h3, h4, h5⟩
      · exact ⟨h1, h2, h3, h4, h5⟩
  | keyEnter =>
      simp only [update]; split
      · split
        · exact ⟨h1, h2, h3, h4, h5⟩
        · exact ⟨h1, h2, Or.inl rfl, h4, h5⟩
      · exact ⟨h1, h2, h3, h4, h5⟩
  | keyOther v =>
      simp only [update]; split
      · exact ⟨h1, h2, h3, h4, h5⟩
      · exact ⟨h1, h2, h3, h4, h5⟩
  | stopDebate => exact ⟨h1, h2, h3, h4, h5⟩
  | responseChunk c =>
      simp only [update]; split
      · refine ⟨h1, h2, h3, ?_, chunkHistory_alternates s c now h5⟩
        refine chunkHistory_names s c now (fun n => n = m1 ∨ n = m2) h4 ?_
        rcases getNextModel_cases s with hn | hn
        · rw [hn, h1]; exact Or.inl rfl
        · rw [hn, h2]; exact Or.inr rfl
      · exact ⟨h1, h2, h3, h4, h5⟩
  | responseComplete full =>
      set s1 : DebateModel := { s with isGenerating := false } with hs1
      set s2 : DebateModel := { s1 with history := completeHistory s1 full now } with hs2
      refine ⟨?_, ?_, ?_, ?_, ?_⟩
      · show (switchTurn s2).model1Name = m1
        rw [switchTurn_model1Name]; exact h1
      · show (switchTurn s2).model2Name = m2
        rw [switchTurn_model2Name]; exact h2
      · exact switchTurn_currentTurn s2
      · show ∀ t ∈ (switchTurn s2).history, t.modelName = m1 ∨ t.modelName = m2
        rw [switchTurn_history]
        refine completeHistory_names s1 full now (fun n => n = m1 ∨ n = m2) h4 ?_
        rcases getNextModel_cases s1 with hn | hn
        · rw [hn]; exact Or.inl h1
        · rw [hn]; exact Or.inr h2
      · show alternatesOk (switchTurn s2).history
        rw [switchTurn_history]
        exact completeHistory_alternates s1 full now h5
  | responseError e =>
      set s1 : DebateModel :=
        { s with isGenerating := false, errorMsg := "Error: ".data ++ e } with hs1
      refine ⟨?_, ?_, ?_, ?_, ?_⟩
      · show (switchTurn s1).model1Name = m1
        rw [switchTurn_model1Name]; exact h1
      · show (switchTurn s1).model2Name = m2
        rw [switchTurn_model2Name]; exact h2
      · exact switchTurn_currentTurn s1
      · show ∀ t ∈ (switchTurn s1).history, t.modelName = m1 ∨ t.modelName = m2
        rw [switchTurn_history]; exact h4
      · show alternatesOk (switchTurn s1).history
        rw [switchTurn_history]; exact h5

lemma reachable_inv (m1 m2 : Str) (s : DebateModel)
    (h : Reachable m1 m2 s) : Inv m1 m2 s := by
  induction h with
  | init => exact inv_init m1 m2
  | step m msg now _ ih => exact inv_step m1 m2 m msg now ih

lemma switchTurn_involution (s : DebateModel)
    (h : s.currentTurn = 0 ∨ s.currentTurn = 1) :
    switchTurn (switchTurn s) = s := by
  cases s with
  | mk a b c d ct e f g i =>
      rcases h with h0 | h0 <;>
        (simp only at h0; subst h0; simp [switchTurn])

/-- Claim C1: in every reachable state, every recorded Turn is attributed
to one of the two configured participants and consecutive Turns carry
different participants — including runs with generation failures, since
the error handler leaves the history alone and only toggles the turn. -/
theorem reachable_turn_alternation (m1 m2 : Str) (s : DebateModel)
    (h : Reachable m1 m2 s) :
    (∀ t ∈ s.history, t.modelName = m1 ∨ t.modelName = m2) ∧
    List.Chain' (fun a b => a.modelName ≠ b.modelName) s.history := by
  obtain ⟨_, _, _, h4, h5⟩ := reachable_inv m1 m2 s h
  exact ⟨h4, h5⟩

/-- Witness for C1: a concrete six-event run (topic entry, a completion
by model a, two failures, then a completion by model b) is reachable and
its two-turn history alternates. -/
theorem reachable_turn_alternation_witness :
    (∀ t ∈ (update (update (update (update (update (update
          (initialModel "a".data "b".data) (.keyOther "t".data) 0) .keyEnter 1)
          (.responseComplete "A".data) 2) (.responseError "x".data) 3)
          (.responseError "y".data) 4) (.responseComplete "B".data) 5).history,
        t.modelName = "a".data ∨ t.modelName = "b".data) ∧
    List.Chain' (fun a b => a.modelName ≠ b.modelName)
      (update (update (update (update (update (update
          (initialModel "a".data "b".data) (.keyOther "t".data) 0) .keyEnter 1)
          (.responseComplete "A".data) 2) (.responseError "x".data) 3)
          (.responseError "y".data) 4) (.responseComplete "B".data) 5).history :=
  reachable_turn_alternation "a".data "b".data _
    (.step _ _ _ (.step _ _ _ (.step _ _ _ (.step _ _ _ (.step _ _ _ (.step _ _ _ .init))))))

/-- Claim C10: in every reachable state the turn selector is 0 or 1,
switchTurn is an involution there, and getNextModel picks one of the two
configured model names. -/
theorem selector_binary_involution (m1 m2 : Str) (s : DebateModel)
    (h : Reachable m1 m2 s) :
    (s.currentTurn = 0 ∨ s.currentTurn = 1) ∧
    switchTurn (switchTurn s) = s ∧
    (getNextModel s = m1 ∨ getNextModel s = m2) := by
  obtain ⟨h1, h2, h3, _, _⟩ := reachable_inv m1 m2 s h
  refine ⟨h3, switchTurn_involution s h3, ?_⟩
  rcases getNextModel_cases s with hn | hn
  · exact Or.inl (hn.trans h1)
  · exact Or.inr (hn.trans h2)

/-- Witness for C10: the selector facts at the concrete reachable state
after topic entry and one completion (selector = 1). -/
theorem selector_binary_involution_witness :
    ((update (update (update (initialModel "a".data "b".data)
        (.keyOther "t".data) 0) .keyEnter 1) (.responseComplete "A".data) 2).currentTurn = 0 ∨
     (update (update (update (initialModel "a".data "b".data)
        (.keyOther "t".data) 0) .keyEnter 1) (.responseComplete "A".data) 2).currentTurn = 1) ∧
    switchTurn (switchTurn (update (update (update (initialModel "a".data "b".data)
        (.keyOther "t".data) 0) .keyEnter 1) (.responseComplete "A".data) 2)) =
      update (update (update (initialModel "a".data "b".data)
        (.keyOther "t".data) 0) .keyEnter 1) (.responseComplete "A".data) 2 ∧
    (getNextModel (update (update (update (initialModel "a".data "b".data)
        (.keyOther "t".data) 0) .keyEnter 1) (.responseComplete "A".data) 2) = "a".data ∨
     getNextModel (update (update (update (initialModel "a".data "b".data)
        (.keyOther "t".data) 0) .keyEnter 1) (.responseComplete "A".data) 2) = "b".data) :=
  selector_binary_involution "a".data "b".data _
    (.step _ _ _ (.step _ _ _ (.step _ _ _ .init)))

/-- The concrete state reached by typing topic "t", submitting it, and
pressing ctrl+c during the debate: Stopped, with the generating flag
still set and an empty history. -/
def stoppedScenario : DebateModel :=
  update (update (update (initialModel "a".data "b".data)
    (.keyOther "t".data) 0) .keyEnter 1) .keyCtrlCOrQ 2

/-- Counterexample to claim C2: the completion handler is not guarded by
the session state, so a completion event processed in the Stopped state
still mutates the transcript (here it appends a turn to the empty
history), contradicting "processing a subsequent complete event leaves
the transcript unchanged". -/
theorem stopped_complete_mutates_history :
    stoppedScenario.state = AppState.stateStopped ∧
    stoppedScenario.history = [] ∧
    (update stoppedScenario (.responseComplete "x".data) 3).state = AppState.stateStopped ∧
    (update stoppedScenario (.responseComplete "x".data) 3).history =
      [⟨"a".data, "x".data, 3⟩] := by
  decide

/-- Claim C2 as amended: in the Stopped state, submit (enter) and stop
key events leave the model unchanged, a stop-debate event preserves the
transcript, topic and state, stop is idempotent (a second stop yields
exactly the state of the first), and a chunk event is ignored once the
generating flag is cleared; completion events, however, are processed
regardless of state (see the counterexample). -/
theorem stopped_submit_stop_noop (s : DebateModel) (c : Str) (now now2 : Nat)
    (h : s.state = AppState.stateStopped) :
    update s .keyEnter now = s ∧
    update s .keyCtrlCOrQ now = s ∧
    (update s .stopDebate now).state = AppState.stateStopped ∧
    (update s .stopDebate now).history = s.history ∧
    (update s .stopDebate now).topic = s.topic ∧
    update (update s .stopDebate now) .stopDebate now2 = update s .stopDebate now ∧
    (s.isGenerating = false → update s (.responseChunk c) now = s) := by
  refine ⟨?_, ?_, rfl, rfl, rfl, rfl, ?_⟩
  · simp [update, h]
  · simp [update, h]
  · intro hg
    simp [update, hg]

/-- Witness for the amended C2 at the concrete stopped state reached by
ctrl+c and a subsequent stop-debate event (generating flag cleared). -/
theorem stopped_submit_stop_noop_witness :
    update (update stoppedScenario .stopDebate 3) .keyEnter 4 =
        update stoppedScenario .stopDebate 3 ∧
    update (update stoppedScenario .stopDebate 3) .keyCtrlCOrQ 4 =
        update stoppedScenario .stopDebate 3 ∧
    (update (update stoppedScenario .stopDebate 3) .stopDebate 4).state =
        AppState.stateStopped ∧
    (update (update stoppedScenario .stopDebate 3) .stopDebate 4).history =
        (update stoppedScenario .stopDebate 3).history ∧
    (update (update stoppedScenario .stopDebate 3) .stopDebate 4).topic =
        (update stoppedScenario .stopDebate 3).topic ∧
    update (update (update stoppedScenario .stopDebate 3) .stopDebate 4) .stopDebate 5 =
        update (update stoppedScenario .stopDebate 3) .stopDebate 4 ∧
    ((update stoppedScenario .stopDebate 3).isGenerating = false →
      update (update stoppedScenario .stopDebate 3) (.responseChunk "z".data) 4 =
        update stoppedScenario .stopDebate 3) :=
  stopped_submit_stop_noop (update stoppedScenario .stopDebate 3) "z".data 4 5 (by decide)

/-- The concrete Running state with one closed turn: topic "t" was
submitted and model a completed with text "X"; model b is now active. -/
def dupCompleteScenario : DebateModel :=
  update (update (update (initialModel "a".data "b".data)
    (.keyOther "t".data) 0) .keyEnter 1) (.responseComplete "X".data) 2

/-- Claim C3 evaluated at the failing input: in a Running state whose
history is one turn by model a with content "X" and whose active model
is b, a completion event with the non-conflicting final text "X" leaves
the history unchanged — no turn for b is recorded, so the closed-Turn
count does not grow by 1 as the claim (and the repository's own design
document, Property 8) requires. -/
theorem complete_duplicate_drops_turn :
    dupCompleteScenario.state = AppState.stateDebating ∧
    dupCompleteScenario.isGenerating = true ∧
    dupCompleteScenario.history = [⟨"a".data, "X".data, 2⟩] ∧
    getNextModel dupCompleteScenario = "b".data ∧
    (update dupCompleteScenario (.responseComplete "X".data) 3).history =
      dupCompleteScenario.history := by
  decide

lemma trimSpace_eq_nil (s : Str) (h : ∀ c ∈ s, isSpaceChar c = true) :
    trimSpace s = [] := by
  unfold trimSpace
  rw [List.dropWhile_eq_nil_iff.mpr h]
  rfl

/-- Claim C4: submitting a topic that is empty or all whitespace while
in the input state only sets the validation error message; state, topic
and history (and every other field) are unchanged. -/
theorem whitespace_topic_rejected (s : DebateModel) (now : Nat)
    (hstate : s.state = AppState.stateInput)
    (hws : ∀ c ∈ s.textInputValue, isSpaceChar c = true) :
    update s .keyEnter now = { s with errorMsg := "Topic cannot be empty".data } ∧
    (update s .keyEnter now).state = AppState.stateInput ∧
    (update s .keyEnter now).history = s.history ∧
    (update s .keyEnter now).topic = s.topic := by
  have ht : trimSpace s.textInputValue = [] := trimSpace_eq_nil _ hws
  have hmain : update s .keyEnter now = { s with errorMsg := "Topic cannot be empty".data } := by
    simp [update, hstate, ht]
  exact ⟨hmain, by rw [hmain]; exact hstate, by rw [hmain], by rw [hmain]⟩

/-- Witness for C4: the initial model with "   " typed into the topic
field rejects the submission, keeping the empty history and topic. -/
theorem whitespace_topic_rejected_witness :
    update (update (initialModel "a".data "b".data) (.keyOther "   ".data) 0) .keyEnter 1 =
      { update (initialModel "a".data "b".data) (.keyOther "   ".data) 0 with
          errorMsg := "Topic cannot be empty".data } ∧
    (update (update (initialModel "a".data "b".data) (.keyOther "   ".data) 0) .keyEnter 1).state =
      AppState.stateInput ∧
    (update (update (initialModel "a".data "b".data) (.keyOther "   ".data) 0) .keyEnter 1).history =
      (update (initialModel "a".data "b".data) (.keyOther "   ".data) 0).history ∧
    (update (update (initialModel "a".data "b".data) (.keyOther "   ".data) 0) .keyEnter 1).topic =
      (update (initialModel "a".data "b".data) (.keyOther "   ".data) 0).topic :=
  whitespace_topic_rejected (update (initialModel "a".data "b".data) (.keyOther "   ".data) 0)
    1 (by decide) (by decide)

/-- Claim C9: the client's base URL defaults to the local Ollama
endpoint exactly when the given base URL is the empty string, and is the
given string unchanged otherwise. -/
theorem base_url_default (s : Str) :
    (s = [] → newOllamaClientBaseURL s = "http://localhost:11434".data) ∧
    (s ≠ [] → newOllamaClientBaseURL s = s) := by
  constructor <;> intro h <;> simp [newOllamaClientBaseURL, h]

/-- Witness for C9 at the empty string and at a custom URL. -/
theorem base_url_default_witness :
    newOllamaClientBaseURL [] = "http://localhost:11434".data ∧
    newOllamaClientBaseURL "http://custom:8080".data = "http://custom:8080".data :=
  ⟨(base_url_default []).1 rfl, (base_url_default "http://custom:8080".data).2 (by decide)⟩

lemma content_infix_entry (t : Turn) :
    List.IsInfix t.content (formatTurnEntry t) :=
  ⟨"[".data ++ t.modelName ++ "]: ".data, [], by
    simp [formatTurnEntry, List.append_assoc]⟩

lemma attribution_infix_entry (t : Turn) :
    List.IsInfix ("[".data ++ t.modelName ++ "]: ".data) (formatTurnEntry t) :=
  ⟨[], t.content, by simp [formatTurnEntry, List.append_assoc]⟩

lemma entry_infix_formatHistory (hist : List Turn) (t : Turn) (ht : t ∈ hist) :
    List.IsInfix (formatTurnEntry t) (formatHistory hist) := by
  induction hist with
  | nil => cases ht
  | cons hd rest ih =>
      cases rest with
      | nil =>
          rw [List.mem_singleton] at ht
          subst ht
          exact ⟨[], [], by simp [formatHistory]⟩
      | cons hd2 rest2 =>
          rcases List.mem_cons.mp ht with hh | hh
          · subst hh
            exact ⟨[], "\n\n".data ++ formatHistory (hd2 :: rest2), by
              show [] ++ (formatTurnEntry t ++ ("\n\n".data ++ formatHistory (hd2 :: rest2))) =
                formatHistory (t :: hd2 :: rest2)
              simp [formatHistory, List.append_assoc]⟩
          · refine (ih hh).trans ⟨formatTurnEntry hd ++ "\n\n".data, [], ?_⟩
            simp [formatHistory, List.append_assoc]

lemma topic_infix_prompt (topic : Str) (hist : List Turn) (cur : Str) (flag : Bool) :
    List.IsInfix topic (buildDebatePrompt topic hist cur flag) :=
  ⟨"You are participating in a debate on the topic: \"".data,
   "\"\n\n".data ++ "You are ".data ++ cur
     ++ ". Your role is to present arguments and respond to your opponent's points.\n\n".data
     ++ positionSegment hist flag
     ++ (if hist = [] then []
         else "Previous discussion:\n".data ++ formatHistory hist ++ "\n".data)
     ++ (if hist = [] then
           "Provide your opening argument. Be thoughtful, specific, and clearly state your position.\n".data
         else
           "Provide your next argument or response. Be thoughtful, specific, and engage directly with the previous points made.\n".data),
   by simp [buildDebatePrompt, List.append_assoc]⟩

lemma formatHistory_infix_prompt (topic : Str) (hist : List Turn) (cur : Str) (flag : Bool)
    (hne : hist ≠ []) :
    List.IsInfix (formatHistory hist) (buildDebatePrompt topic hist cur flag) :=
  ⟨"You are participating in a debate on the topic: \"".data ++ topic ++ "\"\n\n".data
     ++ "You are ".data ++ cur
     ++ ". Your role is to present arguments and respond to your opponent's points.\n\n".data
     ++ positionSegment hist flag ++ "Previous discussion:\n".data,
   "\n".data
     ++ "Provide your next argument or response. Be thoughtful, specific, and engage directly with the previous points made.\n".data,
   by simp [buildDebatePrompt, hne, List.append_assoc]⟩

/-- Claim C5: the composed prompt contains the topic verbatim and, for
every recorded turn, both its content and the attribution token naming
its participant, for every value of the opening-turn flag. -/
theorem prompt_context_complete (topic : Str) (hist : List Turn) (cur : Str) (flag : Bool) :
    List.IsInfix topic (buildDebatePrompt topic hist cur flag) ∧
    ∀ t ∈ hist,
      List.IsInfix t.content (buildDebatePrompt topic hist cur flag) ∧
      List.IsInfix ("[".data ++ t.modelName ++ "]: ".data)
        (buildDebatePrompt topic hist cur flag) := by
  refine ⟨topic_infix_prompt topic hist cur flag, ?_⟩
  intro t ht
  have hne : hist ≠ [] := List.ne_nil_of_mem ht
  have hfh := (entry_infix_formatHistory hist t ht).trans
    (formatHistory_infix_prompt topic hist cur flag hne)
  exact ⟨(content_infix_entry t).trans hfh, (attribution_infix_entry t).trans hfh⟩

/-- Witness for C5: the prompt for topic "T" over a one-turn history by
model a contains the topic, the content and the attribution token. -/
theorem prompt_context_complete_witness :
    List.IsInfix "T".data
      (buildDebatePrompt "T".data [⟨"a".data, "x".data, 0⟩] "b".data true) ∧
    List.IsInfix "x".data
      (buildDebatePrompt "T".data [⟨"a".data, "x".data, 0⟩] "b".data true) ∧
    List.IsInfix ("[".data ++ "a".data ++ "]: ".data)
      (buildDebatePrompt "T".data [⟨"a".data, "x".data, 0⟩] "b".data true) := by
  have h := prompt_context_complete "T".data [⟨"a".data, "x".data, 0⟩] "b".data true
  have h2 := h.2 ⟨"a".data, "x".data, 0⟩ (by simp)
  exact ⟨h.1, h2.1, h2.2⟩

lemma positionSegment_ne_facts :
    openingInstr ≠ [] ∧ counterInstr ≠ [] ∧ openingInstr ≠ counterInstr := by
  refine ⟨?_, ?_, ?_⟩ <;> decide

/-- Counterexample to claim C6: with the opening-turn flag unset, the
prompt can still contain the opening-position instruction, because the
topic is embedded verbatim and may itself be that instruction text; so
"contains the instruction exactly when the flag is set and the
transcript is empty" fails in the only-if direction. -/
theorem opening_instr_without_flag :
    List.IsInfix openingInstr (buildDebatePrompt openingInstr [] "m".data false) :=
  ⟨"You are participating in a debate on the topic: \"".data,
   "\"\n\n".data ++ "You are ".data ++ "m".data
     ++ ". Your role is to present arguments and respond to your opponent's points.\n\n".data
     ++ "Provide your opening argument. Be thoughtful, specific, and clearly state your position.\n".data,
   by simp [buildDebatePrompt, positionSegment, List.append_assoc]⟩

/-- Claim C6 as amended: the composer emits the opening-position segment
exactly when the flag is set and the transcript is empty, and the
opposing-position segment exactly when the flag is set and the
transcript is non-empty (the prompt then contains the respective
instruction); with the flag unset the composer emits no instruction
segment, though the instruction text may still occur inside the prompt
when the topic or a turn's content contains it verbatim. -/
theorem prompt_position_instructions (topic : Str) (hist : List Turn) (cur : Str) (flag : Bool) :
    (flag = true → hist = [] →
      List.IsInfix openingInstr (buildDebatePrompt topic hist cur flag)) ∧
    (flag = true → hist ≠ [] →
      List.IsInfix counterInstr (buildDebatePrompt topic hist cur flag)) ∧
    (positionSegment hist flag = openingInstr ↔ flag = true ∧ hist = []) ∧
    (positionSegment hist flag = counterInstr ↔ flag = true ∧ hist ≠ []) ∧
    (flag = false → positionSegment hist flag = []) := by
  obtain ⟨hop, hco, hoc⟩ := positionSegment_ne_facts
  refine ⟨?_, ?_, ?_, ?_, ?_⟩
  · rintro rfl rfl
    exact ⟨"You are participating in a debate on the topic: \"".data ++ topic ++ "\"\n\n".data
        ++ "You are ".data ++ cur
        ++ ". Your role is to present arguments and respond to your opponent's points.\n\n".data,
      "Provide your opening argument. Be thoughtful, specific, and clearly state your position.\n".data,
      by simp [buildDebatePrompt, positionSegment, List.append_assoc]⟩
  · rintro rfl hne
    exact ⟨"You are participating in a debate on the topic: \"".data ++ topic ++ "\"\n\n".data
        ++ "You are ".data ++ cur
        ++ ". Your role is to present arguments and respond to your opponent's points.\n\n".data,
      ("Previous discussion:\n".data ++ formatHistory hist ++ "\n".data)
        ++ "Provide your next argument or response. Be thoughtful, specific, and engage directly with the previous points made.\n".data,
      by simp [buildDebatePrompt, positionSegment, hne, List.append_assoc]⟩
  · unfold positionSegment
    cases flag with
    | false => simp [Ne.symm hop]
    | true =>
        by_cases hh : hist = [] <;> simp [hh, Ne.symm hoc]
  · unfold positionSegment
    cases flag with
    | false => simp [Ne.symm hco]
    | true =>
        by_cases hh : hist = [] <;> simp [hh, hoc]
  · rintro rfl; rfl

/-- Witness for the amended C6: with the flag set and an empty history
the prompt contains the opening instruction, and the segment equals the
opening instruction. -/
theorem prompt_position_instructions_witness :
    List.IsInfix openingInstr (buildDebatePrompt "T".data [] "m".data true) ∧
    positionSegment ([] : List Turn) true = openingInstr :=
  ⟨(prompt_position_instructions "T".data [] "m".data true).1 rfl rfl,
   ((prompt_position_instructions "T".data [] "m".data true).2.2.1).mpr ⟨rfl, rfl⟩⟩

/-- A context that is never cancelled (also reused for a send select
that always finds the caller ready). -/
def noCancel : Nat → Bool := fun _ => false

/-- A cancellation token signalled from iteration n onward. -/
def cancelFrom (n : Nat) : Nat → Bool := fun i => decide (n ≤ i)

lemma runLines_split (cd sc : Nat → Bool) (pre rest : List StreamRec) (i : Nat)
    (scanErr : Bool)
    (hnt : ∀ l ∈ pre, isNonTerminal l = true)
    (hcd : ∀ j, j < pre.length → cd (i + j) = false)
    (hsc : ∀ j, j < pre.length → sc (i + j) = false) :
    runLines cd sc (pre ++ rest) i scanErr =
      (chunksOf pre ++ (runLines cd sc rest (i + pre.length) scanErr).1,
       (runLines cd sc rest (i + pre.length) scanErr).2) := by
  induction pre generalizing i with
  | nil => simp [chunksOf]
  | cons hd tl ih =>
      have hcd0 : cd i = false := by simpa using hcd 0 (by simp)
      have hnext : ∀ j, j < tl.length → cd (i + 1 + j) = false := by
        intro j hj
        have := hcd (j + 1) (by simpa using Nat.succ_lt_succ hj)
        simpa [Nat.add_assoc, Nat.add_comm 1 j] using this
      have hsnext : ∀ j, j < tl.length → sc (i + 1 + j) = false := by
        intro j hj
        have := hsc (j + 1) (by simpa using Nat.succ_lt_succ hj)
        simpa [Nat.add_assoc, Nat.add_comm 1 j] using this
      have htl : ∀ l ∈ tl, isNonTerminal l = true := fun l hl => hnt l (by simp [hl])
      have hlen : i + (tl.length + 1) = i + 1 + tl.length := by omega
      cases hd with
      | emptyLine =>
          rw [List.cons_append]
          simp only [runLines, hcd0, Bool.false_eq_true, if_false]
          rw [ih (i + 1) htl hnext hsnext]
          simp [chunksOf, hlen]
      | malformed =>
          exact absurd (hnt .malformed (by simp)) (by simp [isNonTerminal])
      | parsed resp done =>
          have hdone : done = false := by
            have := hnt (.parsed resp done) (by simp)
            simpa [isNonTerminal] using this
          subst hdone
          have hsc0 : sc i = false := by simpa using hsc 0 (by simp)
          rw [List.cons_append]
          simp only [runLines, hcd0, Bool.false_eq_true, if_false, hsc0, and_false,
            ne_eq, if_false]
          rw [ih (i + 1) htl hnext hsnext]
          by_cases hresp : resp = [] <;>
            simp [hresp, chunksOf, hlen, List.append_assoc]

/-- Counterexample to claim C7: when the response body ends cleanly
before any record with the completion flag arrives (here: an empty body,
zero records), the goroutine still closes both channels without sending
an error, i.e. it reports success although no completion-flagged record
was parsed — "success exactly when a completion-flag record is parsed"
fails. -/
theorem stream_eof_success_without_done :
    generateResponseRun false 200 [] false noCancel noCancel = ([], Outcome.success) := by
  decide

/-- Claim C7 as amended: the client reports failure with the captured
status code on a non-success status (parsing nothing, whatever the
body), abandons parsing with a parse failure at the first malformed
record, reports success at the first completion-flagged record ignoring
everything after it, and also reports success when the record stream
ends cleanly without a completion flag; a connection failure is reported
before anything else. -/
theorem stream_outcomes (status : Nat) (pre rest lines : List StreamRec) (resp : Str)
    (scanErr : Bool) (cd sc : Nat → Bool)
    (hpre : ∀ l ∈ pre, isNonTerminal l = true)
    (hlines : ∀ l ∈ lines, isNonTerminal l = true) :
    generateResponseRun true status lines scanErr cd sc = ([], .failure .connectFailure) ∧
    (status ≠ 200 →
      generateResponseRun false status lines scanErr cd sc =
        ([], .failure (.httpStatus status))) ∧
    generateResponseRun false 200 (pre ++ .malformed :: rest) scanErr noCancel noCancel =
      (chunksOf pre, .failure .parseFailure) ∧
    generateResponseRun false 200 (pre ++ .parsed resp true :: rest) scanErr noCancel noCancel =
      (chunksOf pre ++ (if resp = [] then [] else [resp]), .success) ∧
    generateResponseRun false 200 lines false noCancel noCancel =
      (chunksOf lines, .success) := by
  refine ⟨rfl, ?_, ?_, ?_, ?_⟩
  · intro hs
    simp [generateResponseRun, hs]
  · show runLines noCancel noCancel (pre ++ .malformed :: rest) 0 scanErr = _
    rw [runLines_split noCancel noCancel pre (.malformed :: rest) 0 scanErr hpre
      (fun _ _ => rfl) (fun _ _ => rfl)]
    simp [runLines, noCancel]
  · show runLines noCancel noCancel (pre ++ .parsed resp true :: rest) 0 scanErr = _
    rw [runLines_split noCancel noCancel pre (.parsed resp true :: rest) 0 scanErr hpre
      (fun _ _ => rfl) (fun _ _ => rfl)]
    by_cases hresp : resp = [] <;> simp [runLines, noCancel, hresp]
  · show runLines noCancel noCancel lines 0 false = _
    have := runLines_split noCancel noCancel lines [] 0 false hlines
      (fun _ _ => rfl) (fun _ _ => rfl)
    rw [List.append_nil] at this
    rw [this]
    simp [runLines]

/-- Witness for the amended C7 at concrete streams: a 503 status, a
malformed second record, a completion-flagged second record, and a clean
two-record end of stream. -/
theorem stream_outcomes_witness :
    generateResponseRun true 503 [] false noCancel noCancel = ([], .failure .connectFailure) ∧
    generateResponseRun false 503 [] false noCancel noCancel = ([], .failure (.httpStatus 503)) ∧
    generateResponseRun false 200 [.parsed "He".data false, .malformed] false noCancel noCancel =
      (["He".data], .failure .parseFailure) ∧
    generateResponseRun false 200 [.parsed "He".data false, .parsed "yo".data true,
        .malformed] false noCancel noCancel =
      (["He".data] ++ (if ("yo".data : Str) = [] then [] else ["yo".data]), .success) ∧
    generateResponseRun false 200 [.parsed "He".data false, .emptyLine] false noCancel noCancel =
      (chunksOf [.parsed "He".data false, .emptyLine], .success) := by
  have h := stream_outcomes 503 [.parsed "He".data false]
    [.malformed] [.parsed "He".data false, .emptyLine] "yo".data false noCancel noCancel
    (by decide) (by decide)
  refine ⟨h.1, h.2.1 (by decide), ?_, ?_, h.2.2.2.2⟩
  · have h3 := h.2.2.1
    rw [show chunksOf [.parsed "He".data false] = ["He".data] from rfl] at h3
    exact h3
  · have h4 := h.2.2.2.1
    rw [show chunksOf [.parsed "He".data false] = ["He".data] from rfl] at h4
    exact h4

/-- Claim C8: once the cancellation token is signalled, the client emits
no increment from any later record and reports failure with the
distinguished "canceled" cause (not a transport cause) — whether the
cancellation is observed at the per-record top-of-loop check (first
conjunct: token signalled from the first unprocessed record onward) or
at the select that hands an increment to a caller that is not ready
(second conjunct); the third conjunct records that the canceled cause is
distinct from every transport/protocol cause. -/
theorem cancellation_stops_stream (pre rest : List StreamRec) (resp : Str) (scanErr : Bool)
    (hpre : ∀ l ∈ pre, isNonTerminal l = true)
    (hrest : rest ≠ []) (hresp : resp ≠ []) :
    generateResponseRun false 200 (pre ++ rest) scanErr (cancelFrom pre.length) noCancel =
      (chunksOf pre, .failure .canceled) ∧
    generateResponseRun false 200 (pre ++ .parsed resp false :: rest) scanErr noCancel
        (cancelFrom pre.length) =
      (chunksOf pre, .failure .canceled) ∧
    (ErrCause.canceled ≠ ErrCause.connectFailure ∧
     ErrCause.canceled ≠ ErrCause.scanFailure ∧
     ErrCause.canceled ≠ ErrCause.parseFailure ∧
     ∀ c, ErrCause.canceled ≠ ErrCause.httpStatus c) := by
  have hble : ∀ j, j < pre.length → cancelFrom pre.length j = false := by
    intro j hj
    simp only [cancelFrom, decide_eq_false_iff_not]
    omega
  refine ⟨?_, ?_, by decide, by decide, by decide, fun c => by simp⟩
  · show runLines (cancelFrom pre.length) noCancel (pre ++ rest) 0 scanErr = _
    rw [runLines_split (cancelFrom pre.length) noCancel pre rest 0 scanErr hpre
      (fun j hj => by simpa using hble j hj) (fun _ _ => rfl)]
    cases rest with
    | nil => exact absurd rfl hrest
    | cons hd tl =>
        have hc : cancelFrom pre.length pre.length = true := by
          simp [cancelFrom]
        simp [runLines, hc]
  · show runLines noCancel (cancelFrom pre.length)
      (pre ++ .parsed resp false :: rest) 0 scanErr = _
    rw [runLines_split noCancel (cancelFrom pre.length) pre (.parsed resp false :: rest)
      0 scanErr hpre (fun _ _ => rfl) (fun j hj => by simpa using hble j hj)]
    have hsc : cancelFrom pre.length pre.length = true := by
      simp [cancelFrom]
    simp [runLines, noCancel, hsc, hresp]

/-- Witness for C8: cancelling after one record of a three-record stream
yields exactly the first chunk and a canceled failure, at both
observation points. -/
theorem cancellation_stops_stream_witness :
    generateResponseRun false 200
        ([.parsed "He".data false] ++ [.parsed "yo".data false, .parsed [] true]) false
        (cancelFrom 1) noCancel = (["He".data], .failure .canceled) ∧
    generateResponseRun false 200
        ([.parsed "He".data false] ++ .parsed "yo".data false :: [.parsed [] true]) false
        noCancel (cancelFrom 1) = (["He".data], .failure .canceled) ∧
    (ErrCause.canceled ≠ ErrCause.connectFailure ∧
     ErrCause.canceled ≠ ErrCause.scanFailure ∧
     ErrCause.canceled ≠ ErrCause.parseFailure ∧
     ∀ c, ErrCause.canceled ≠ ErrCause.httpStatus c) := by
  have h := cancellation_stops_stream [.parsed "He".data false]
    [.parsed "yo".data false, .parsed [] true] "yo".data false
    (by decide) (by decide) (by decide)
  have hc : chunksOf [.parsed "He".data false] = ["He".data] := rfl
  rw [hc] at h
  exact h

end GoArgue
